import Mathlib

/-!
Shallow embedding of `src/app.py` (internal-linking dashboard).

The Python file concatenates two revisions of the same app; where the two
revisions define the same function differently, both versions are embedded
(`..._v2` names the second, later-in-file copy).

Pandas cells are modelled by `Cell` (a string, an integer, or NaN/missing);
`pyStr` is Python's `str()` on such a cell, `pdIsNA` is `pandas.isna`, and
`pyInt` is Python's `int()` coercion returning `none` where Python raises.
-/

namespace AppPy

/-- A cell of the loaded CSV table: a string, an integer, or NaN (missing). -/
inductive Cell where
  | strv : String → Cell
  | intv : Int → Cell
  | nan : Cell
deriving DecidableEq, Repr

/-- Python `str()` on a cell: `str(nan)` is the literal string `"nan"`. -/
def pyStr : Cell → String
  | .strv s => s
  | .intv n => toString n
  | .nan => "nan"

/-- `pandas.isna` on a cell. -/
def pdIsNA : Cell → Bool
  | .nan => true
  | _ => false

/-- Python `str.strip()`: drop whitespace from both ends.  (Python also
strips `\f`, `\v` and a few other control characters that `Char.isWhitespace`
does not cover; none occur in this data.) -/
def pyStrip (l : List Char) : List Char :=
  ((l.dropWhile Char.isWhitespace).reverse.dropWhile Char.isWhitespace).reverse

/-- Decimal value of a digit list. -/
def digitsToNat (l : List Char) : Nat :=
  l.foldl (fun acc c => acc * 10 + (c.toNat - '0'.toNat)) 0

/-- Python `int()` on a string: optional surrounding whitespace, optional
sign, then digits.  (`int()` also accepts `_` digit separators, which never
occur in this data.) -/
def parsePyIntStr (s : String) : Option Int :=
  let t := pyStrip s.toList
  let (sign, digits) :=
    match t with
    | '-' :: rest => ((-1 : Int), rest)
    | '+' :: rest => ((1 : Int), rest)
    | _ => ((1 : Int), t)
  if digits ≠ [] ∧ digits.all Char.isDigit then
    some (sign * (digitsToNat digits : Int))
  else none

/-- Python `int()` on a cell; `none` where Python raises (`int(nan)`,
non-numeric strings). -/
def pyInt : Cell → Option Int
  | .strv s => parsePyIntStr s
  | .intv n => some n
  | .nan => none

/-! ## URL parsing (model of `urllib.parse.urlparse` as used by `app.py`)

`urlsplit` in CPython: an optional `scheme:` (first char alphabetic, rest in
`[A-Za-z0-9+.-]`, ending at the first `:`) is stripped; if the remainder
starts with `//`, the netloc runs up to the next `/`, `?` or `#`, and a
`ValueError` is raised when the netloc contains `[` without `]` or vice
versa.  (The NFKC-normalisation check and removal of ASCII control
characters are not modelled; no input of interest contains such
characters.)  Parsing works over `List Char`. -/

/-- Split a character list at its first `:`; `none` when there is no `:`. -/
def splitAtColon : List Char → Option (List Char × List Char)
  | [] => none
  | c :: t =>
    if c = ':' then some ([], t)
    else (splitAtColon t).map (fun p => (c :: p.1, p.2))

/-- Characters allowed after the first one in a URL scheme. -/
def schemeChar (c : Char) : Bool :=
  c.isAlpha || c.isDigit || c = '+' || c = '-' || c = '.'

/-- Strip a leading `scheme:` exactly as CPython `urlsplit` does: the part
before the first `:` must be non-empty, start with a letter and consist of
scheme characters; otherwise the URL is left whole. -/
def stripScheme (l : List Char) : List Char :=
  match splitAtColon l with
  | none => l
  | some (before, after) =>
    match before with
    | [] => l
    | c :: rest => if c.isAlpha && rest.all schemeChar then after else l

/-- A character that terminates the netloc. -/
def netlocEnd (c : Char) : Bool :=
  c = '/' || c = '?' || c = '#'

/-- The `netloc` of `urlparse`: empty unless the scheme-stripped URL starts
with `//`; `Except.error` models the `ValueError` raised on a mismatched
IPv6 bracket. -/
def parseNetloc (l : List Char) : Except Unit (List Char) :=
  match stripScheme l with
  | '/' :: '/' :: r =>
    let nl := r.takeWhile (fun c => !netlocEnd c)
    if (nl.contains '[' && !nl.contains ']') ||
       (nl.contains ']' && !nl.contains '[') then .error ()
    else .ok nl
  | _ => .ok []

/-- Python `str.split(sep)` for a single-character separator: never returns
`[]`; splitting the empty string gives `[[]]`. -/
def splitOnChar (sep : Char) : List Char → List (List Char)
  | [] => [[]]
  | c :: t =>
    let r := splitOnChar sep t
    if c = sep then [] :: r
    else
      match r with
      | [] => [[c]]
      | h :: t2 => (c :: h) :: t2

/-- The path of `urlparse`: what remains after scheme and netloc, up to the
first `?` or `#`.  (The `;params` split of `urlparse` is not modelled; no
claim exercises `;` inside a path.) -/
def parsePath (l : List Char) : List Char :=
  let rest :=
    match stripScheme l with
    | '/' :: '/' :: r => r.dropWhile (fun c => !netlocEnd c)
    | other => other
  rest.takeWhile (fun c => c ≠ '?' && c ≠ '#')

/-- `get_subdomain` (both copies, `src/app.py` lines 26–34 and 139–147):
first dot-label of the netloc when it has more than two labels, else
`"www"`; `"unknown"` when `urlparse` raises.  The bare `except:` also
catches the `TypeError` raised when the cell is not a string. -/
def get_subdomain (cell : Cell) : String :=
  match cell with
  | .strv url =>
    match parseNetloc url.toList with
    | .error _ => "unknown"
    | .ok nl =>
      let domain_parts := splitOnChar '.' nl
      if domain_parts.length > 2 then String.mk (domain_parts.headD [])
      else "www"
  | _ => "unknown"

/-- Python `str.strip('/')`: drop `/` from both ends. -/
def stripSlashes (l : List Char) : List Char :=
  ((l.dropWhile (· = '/')).reverse.dropWhile (· = '/')).reverse

/-- `get_url_components` (both copies, lines 59–70 and 168–179): first two
path segments, each wrapped in slashes; `(none, none)` for an empty path or
a non-string cell (the bare `except:`). -/
def get_url_components (cell : Cell) : Option String × Option String :=
  match cell with
  | .strv url =>
    let path := stripSlashes (parsePath url.toList)
    if path = [] then (none, none)
    else
      let parts := splitOnChar '/' path
      ( some ("/" ++ String.mk (parts.headD []) ++ "/"),
        if parts.length > 1 then
          some ("/" ++ String.mk ((parts.drop 1).headD []) ++ "/")
        else none )
  | _ => (none, none)

/-! ## Anchor bucketizer -/

/-- The shared numeric classification of both `categorise_anchor_count`
copies (lines 47–54 and 156–163). -/
def classifyCount (n : Int) : String :=
  if n ≤ 3 then "1-3"
  else if n ≤ 5 then "4-5"
  else if n ≤ 8 then "6-8"
  else "8+"

/-- `categorise_anchor_count`, first copy (lines 40–54): `int(count)` is
wrapped in `try/except`, so a non-coercible value falls back to
`"Unknown"`. -/
def categorise_anchor_count (c : Cell) : String :=
  if pdIsNA c then "Unknown"
  else
    match pyInt c with
    | some n => classifyCount n
    | none => "Unknown"

/-- `categorise_anchor_count`, second copy (lines 152–163): the `try/except`
around `int(count)` is gone, so a non-NaN, non-coercible value raises
`ValueError` (modelled as `Except.error`). -/
def categorise_anchor_count_v2 (c : Cell) : Except String String :=
  if pdIsNA c then .ok "Unknown"
  else
    match pyInt c with
    | some n => .ok (classifyCount n)
    | none => .error "ValueError"

/-- A row of the table. The five raw CSV columns are `Cell`s; the four
derived columns added by `prepare_data` are `none` while absent.
`url_component_1/2` hold `some none` when the column is present with a
null (`None`) value, mirroring the nullable pandas column. -/
structure Row where
  target_url : Cell
  anchor_texts : Cell
  unique_anchor_text_count : Cell
  total_inlinks : Cell
  found_at : Cell
  subdomain : Option String := none
  anchor_variability : Option String := none
  url_component_1 : Option (Option String) := none
  url_component_2 : Option (Option String) := none
deriving DecidableEq, Repr

/-- A row of the expanded (one-per-anchor) table built by
`expand_anchor_texts`. -/
structure ExpRow where
  target_url : Cell
  anchor_text : String
  found_at : String
deriving DecidableEq, Repr

/-! ## `prepare_data` (both copies) -/

/-- The column decoration common to both `prepare_data` copies: set
`subdomain`, `anchor_variability` (first-copy bucketizer) and the two URL
components. -/
def decorateRow (r : Row) : Row :=
  { r with
    subdomain := some (get_subdomain r.target_url)
    anchor_variability := some (categorise_anchor_count r.unique_anchor_text_count)
    url_component_1 := some (get_url_components r.target_url).1
    url_component_2 := some (get_url_components r.target_url).2 }

/-- `prepare_data`, first copy (lines 24–76): starts with `df = df.copy()`,
so the caller's table is untouched.  The result pairs the returned table
with the state of the argument after the call. -/
def prepare_data (df : List Row) : List Row × List Row :=
  (df.map decorateRow, df)

/-- Decoration as performed by the second `prepare_data` copy, whose
bucketizer can raise. -/
def decorateRowV2 (r : Row) : Except String Row :=
  match categorise_anchor_count_v2 r.unique_anchor_text_count with
  | .error e => .error e
  | .ok v =>
    .ok { r with
          subdomain := some (get_subdomain r.target_url)
          anchor_variability := some v
          url_component_1 := some (get_url_components r.target_url).1
          url_component_2 := some (get_url_components r.target_url).2 }

/-- `prepare_data`, second copy (lines 137–185): no `df.copy()` — the
columns are assigned on the argument itself and the same object is
returned, so after a successful call the caller's table equals the
decorated table.  (On a raised `ValueError` the argument is left partially
decorated; the error value stands for that aborted state.) -/
def prepare_data_v2 (df : List Row) : Except String (List Row × List Row) :=
  match df.mapM decorateRowV2 with
  | .error e => .error e
  | .ok dec => .ok (dec, dec)

/-! ## `expand_anchor_texts` (both copies are textually identical) -/

/-- `[x.strip() for x in s.split(';') if x.strip()]`: split on `;`, trim,
drop tokens that trim to the empty string. -/
def retainedTokens (s : String) : List String :=
  ((splitOnChar ';' s.toList).map (fun t => String.mk (pyStrip t))).filter
    (fun t => t ≠ "")

/-- The inner loop of `expand_anchor_texts`: the `i`-th retained anchor is
paired with `found_ats[i] if i < len(found_ats) else ''`. -/
def pairAnchors (target : Cell) (found_ats : List String) :
    Nat → List String → List ExpRow
  | _, [] => []
  | i, a :: t =>
    ⟨target, a, found_ats.getD i ""⟩ :: pairAnchors target found_ats (i + 1) t

/-- One iteration of `expand_anchor_texts` (lines 84–100): the raw cells
are passed through `str()` before splitting. -/
def expandRow (r : Row) : List ExpRow :=
  pairAnchors r.target_url (retainedTokens (pyStr r.found_at)) 0
    (retainedTokens (pyStr r.anchor_texts))

/-- `expand_anchor_texts` (lines 80–102, identical second copy at
188–210). -/
def expand_anchor_texts (df : List Row) : List ExpRow :=
  df.flatMap expandRow

/-! ## Tab 1: histogram and component breakdown -/

/-- `group_order` (line 246). -/
def group_order : List String := ["1-3", "4-5", "6-8", "8+", "Unknown"]

/-- Occurrences of `x` in `l`. -/
def countOf (l : List String) (x : String) : Nat :=
  (l.filter (fun y => y = x)).length

/-- Distinct values of `l` in order of first occurrence (the index of a
pandas `value_counts` before sorting). -/
def dedupFirst : List String → List String
  | [] => []
  | x :: t => x :: (dedupFirst t).filter (fun y => y ≠ x)

/-- Stable insertion into a count-descending list (ties keep earlier
elements first). -/
def insertDesc (p : String × Nat) : List (String × Nat) → List (String × Nat)
  | [] => [p]
  | q :: t => if q.2 ≤ p.2 then p :: q :: t else q :: insertDesc p t

/-- Stable sort by count, descending. -/
def sortCountDesc (l : List (String × Nat)) : List (String × Nat) :=
  l.foldr insertDesc []

/-- `Series.value_counts()`: distinct values with their multiplicities,
ordered by descending count.  (pandas leaves the order of tied counts
unspecified; first-occurrence order is used here.  NaN values are dropped
by the caller before this point.) -/
def value_counts (l : List String) : List (String × Nat) :=
  sortCountDesc ((dedupFirst l).map (fun v => (v, countOf l v)))

/-- `Series.reindex(order, fill_value=0)` on a `value_counts` result. -/
def reindexCounts (vc : List (String × Nat)) (order : List String) :
    List (String × Nat) :=
  order.map (fun g => (g, (((vc.find? (fun p => p.1 = g)).map Prod.snd).getD 0)))

/-- `anchor_counts` (lines 247–248): `value_counts` of the
`anchor_variability` column reindexed over `group_order` with zero fill.
No deduplication by `target_url` happens anywhere in this pipeline. -/
def anchor_counts (df : List Row) : List (String × Nat) :=
  reindexCounts (value_counts (df.filterMap (fun r => r.anchor_variability)))
    group_order

/-- The rows the dashboard selects for a bucket (line 270). -/
def bucketRows (df : List Row) (bucket : String) : List Row :=
  df.filter (fun r => r.anchor_variability = some bucket)

/-- `count/total*100` rounded (half up) to 2 decimals, represented exactly
as an integer number of hundredths of a percent (50% ↦ 5000).  pandas
rounds the binary float half-to-even; no claim depends on tie behaviour. -/
def pctHundredths (count total : Nat) : Nat :=
  (count * 10000 * 2 + total) / (total * 2)

/-- The component-breakdown tables of tab 1 (lines 270–306): group the
bucket's rows by `url_component_1` (`value_counts` drops nulls from the
groups but `total = len(selected_data)` keeps them in the denominator);
for `url_component_2` the rows are first restricted to non-null values and
that restricted length is the denominator. -/
def component_breakdown (df : List Row) (bucket : String) :
    List (String × Nat × Nat) × List (String × Nat × Nat) :=
  let selected := bucketRows df bucket
  let c1vals := selected.filterMap (fun r => r.url_component_1.join)
  let total := selected.length
  let part1 := (value_counts c1vals).map
    (fun p => (p.1, p.2, pctHundredths p.2 total))
  let selected2 := selected.filter (fun r => (r.url_component_2.join).isSome)
  let c2vals := selected2.filterMap (fun r => r.url_component_2.join)
  let total2 := selected2.length
  let part2 := (value_counts c2vals).map
    (fun p => (p.1, p.2, pctHundredths p.2 total2))
  (part1, part2)

/-! ## Tab 2: search -/

/-- Is `pat` an initial run of `l`? -/
def beginsWithList : List Char → List Char → Bool
  | _, [] => true
  | [], _ :: _ => false
  | c :: cs, p :: ps => c = p && beginsWithList cs ps

/-- Does `l` contain `pat` as a contiguous run? -/
def hasSubList (pat : List Char) : List Char → Bool
  | [] => beginsWithList [] pat
  | c :: t => beginsWithList (c :: t) pat || hasSubList pat t

/-- ASCII lowering of a character list (Python lowercases the full Unicode
range; all data here is ASCII). -/
def lowerList (l : List Char) : List Char :=
  l.map Char.toLower

/-- The characters Python's `re` module treats as special in a pattern:
`. ^ $ * + ?`, the curly braces (written `\x7b`/`\x7d` here), `[ ] \ | ( )`.
A pattern avoiding all of them matches purely literally. -/
def regexMeta (c : Char) : Bool :=
  c = '.' || c = '^' || c = '$' || c = '*' || c = '+' || c = '?' ||
  c = '\x7b' || c = '\x7d' || c = '[' || c = ']' || c = '\\' ||
  c = '|' || c = '(' || c = ')'

/-- A search term containing no regex metacharacter, so that
`re.search(term, s)` is exactly literal substring matching. -/
def regexFree (term : String) : Bool :=
  term.toList.all (fun c => !regexMeta c)

/-- `Series.str.contains(term, case=False, na=False)` restricted to terms
that are `regexFree`.  The code's default is `regex=True`: the user's term
is compiled as a regular expression, so a term with metacharacters has
genuine regex semantics (`"."` matches any character, and an invalid
pattern such as a lone `"("` makes `re` raise `re.error`).  This model
covers only the metacharacter-free domain, on which the regex match is
literal case-insensitive containment — every theorem about the search
carries a `regexFree` hypothesis; non-string cells are excluded by
`na=False`. -/
def containsCI (cell : Cell) (term : String) : Bool :=
  match cell with
  | .strv s => hasSubList (lowerList term.toList) (lowerList s.toList)
  | _ => false

/-- Tab 2 (lines 315–333): `if search_term:` — the falsy empty string
produces no search at all (`none`; the page just prompts for a term, and
`re` is never invoked); otherwise the expanded table is filtered by
`str.contains` on `target_url`, modelled by `containsCI` on `regexFree`
terms only (see there).  No other filter exists on this tab. -/
def search_results (dfx : List ExpRow) (term : String) :
    Option (List ExpRow) :=
  if term = "" then none
  else some (dfx.filter (fun r => containsCI r.target_url term))

/-! ## Tab 3: missing-anchor report -/

/-- After a `|`, does a run of whitespace followed by `(` begin?  (`\s*\(`
continuing the regex `\|\s*\(`.) -/
def barParenAfter : List Char → Bool
  | [] => false
  | c :: t => if c = '(' then true else if c.isWhitespace then barParenAfter t else false

/-- `re.search(r'\|\s*\(', s)` as a Boolean: some `|` is followed by
optional whitespace and `(`. -/
def hasBarParen : List Char → Bool
  | [] => false
  | c :: t => (c = '|' && barParenAfter t) || hasBarParen t

/-- `missing_anchor_df` (lines 340–342): filter the *prepared* table —
not the expanded one — to rows whose `anchor_texts`, via `astype(str)`,
matches the regex `\|\s*\(`. -/
def missing_anchor_df (df : List Row) : List Row :=
  df.filter (fun r => hasBarParen (pyStr r.anchor_texts).toList)

/-! ## Concrete rows used in the theorems -/

/-- The worked example row of the spec (§8). -/
def ex8Row : Row where
  target_url := .strv "https://shop.example.com/a/b/"
  anchor_texts := .strv "Buy Now; "
  unique_anchor_text_count := .intv 2
  total_inlinks := .intv 10
  found_at := .strv "https://example.com/p1;https://example.com/p2"

/-- A row whose `anchor_texts` trims to no tokens at all. -/
def wsRow : Row where
  target_url := .strv "https://shop.example.com/only/"
  anchor_texts := .strv " ; "
  unique_anchor_text_count := .intv 1
  total_inlinks := .intv 1
  found_at := .strv "https://example.com/p1"

/-- The example row decorated into the `1-3` bucket (its
`unique_anchor_text_count` is 2). -/
def dupRow : Row :=
  { ex8Row with anchor_variability := some "1-3" }

/-- A decorated row in bucket `1-3` with both URL components present. -/
def demoRowA : Row :=
  { ex8Row with
      anchor_variability := some "1-3"
      url_component_1 := some (some "/a/")
      url_component_2 := some (some "/b/") }

/-- A decorated row in bucket `1-3` whose `url_component_2` is null. -/
def demoRowB : Row :=
  { ex8Row with
      anchor_variability := some "1-3"
      url_component_1 := some (some "/c/")
      url_component_2 := some none }

/-- A two-row bucket where only one row has a second URL component, so the
two percentage denominators of `component_breakdown` differ (2 vs 1). -/
def demoTable : List Row := [demoRowA, demoRowB]

/-- An expanded record whose `target_url` contains `"shop"` only up to
case. -/
def exExpRow : ExpRow :=
  ⟨.strv "https://Shop.example.com/x", "Buy Now", "https://example.com/p1"⟩

/-- A row whose `anchor_texts` exhibits the `"| ("` malformed-anchor
pattern that tab 3 scans for. -/
def barRow : Row :=
  { ex8Row with anchor_texts := Cell.strv "Home | (image)" }

/-! ## Helper lemmas -/

theorem pairAnchors_getElem? (tgt : Cell) (f : List String) :
    ∀ (l : List String) (i j : Nat),
      (pairAnchors tgt f i l)[j]? =
        (l[j]?).map (fun a => ExpRow.mk tgt a (f.getD (i + j) ""))
  | [], _, _ => by simp [pairAnchors]
  | a :: t, i, 0 => by simp [pairAnchors]
  | a :: t, i, j + 1 => by
    have h := pairAnchors_getElem? tgt f t (i + 1) j
    simp only [pairAnchors, List.getElem?_cons_succ, h]
    rw [show i + 1 + j = i + (j + 1) by omega]

theorem pairAnchors_length (tgt : Cell) (f : List String) :
    ∀ (l : List String) (i : Nat), (pairAnchors tgt f i l).length = l.length
  | [], _ => rfl
  | _ :: t, i => by
    simp [pairAnchors, pairAnchors_length tgt f t (i + 1)]

theorem mem_pairAnchors_target (tgt : Cell) (f : List String) :
    ∀ (l : List String) (i : Nat) (e : ExpRow),
      e ∈ pairAnchors tgt f i l → e.target_url = tgt
  | [], _, _, h => by simp [pairAnchors] at h
  | a :: t, i, e, h => by
    simp only [pairAnchors, List.mem_cons] at h
    rcases h with h | h
    · rw [h]
    · exact mem_pairAnchors_target tgt f t (i + 1) e h

theorem pairAnchors_eq_nil_iff (tgt : Cell) (f : List String)
    (l : List String) (i : Nat) : pairAnchors tgt f i l = [] ↔ l = [] := by
  cases l <;> simp [pairAnchors]

theorem mem_insertDesc (p q : String × Nat) :
    ∀ l : List (String × Nat), q ∈ insertDesc p l ↔ q = p ∨ q ∈ l
  | [] => by simp [insertDesc]
  | x :: t => by
    rw [insertDesc]
    split
    · simp
    · rw [List.mem_cons, mem_insertDesc p q t, List.mem_cons]
      tauto

theorem mem_sortCountDesc (q : String × Nat) :
    ∀ l : List (String × Nat), q ∈ sortCountDesc l ↔ q ∈ l
  | [] => Iff.rfl
  | x :: t => by
    show q ∈ insertDesc x (sortCountDesc t) ↔ _
    rw [mem_insertDesc, mem_sortCountDesc q t, List.mem_cons]

theorem perm_insertDesc (p : String × Nat) :
    ∀ l : List (String × Nat), (insertDesc p l).Perm (p :: l)
  | [] => List.Perm.refl _
  | x :: t => by
    rw [insertDesc]
    split
    · exact List.Perm.refl _
    · exact ((perm_insertDesc p t).cons x).trans (List.Perm.swap p x t)

theorem perm_sortCountDesc :
    ∀ l : List (String × Nat), (sortCountDesc l).Perm l
  | [] => List.Perm.refl _
  | x :: t =>
    (perm_insertDesc x (sortCountDesc t)).trans ((perm_sortCountDesc t).cons x)

theorem mem_dedupFirst (x : String) :
    ∀ l : List String, x ∈ dedupFirst l ↔ x ∈ l
  | [] => Iff.rfl
  | y :: t => by
    rw [dedupFirst]
    by_cases hxy : x = y
    · subst hxy; simp
    · simp only [List.mem_cons, List.mem_filter, mem_dedupFirst x t,
        decide_eq_true_eq]
      tauto

theorem nodup_dedupFirst : ∀ l : List String, (dedupFirst l).Nodup
  | [] => List.nodup_nil
  | y :: t => by
    rw [dedupFirst, List.nodup_cons]
    refine ⟨fun hmem => ?_, (nodup_dedupFirst t).filter _⟩
    have := (List.mem_filter.mp hmem).2
    simp at this

theorem mem_value_counts (l : List String) (x : String) (n : Nat) :
    (x, n) ∈ value_counts l ↔ x ∈ l ∧ n = countOf l x := by
  rw [value_counts, mem_sortCountDesc, List.mem_map]
  constructor
  · rintro ⟨v, hv, heq⟩
    rw [Prod.mk.injEq] at heq
    obtain ⟨hv1, hv2⟩ := heq
    subst hv1
    exact ⟨(mem_dedupFirst v l).mp hv, hv2.symm⟩
  · rintro ⟨hx, hn⟩
    exact ⟨x, (mem_dedupFirst x l).mpr hx, by rw [hn]⟩

theorem keysNodup_value_counts (l : List String) :
    ((value_counts l).map Prod.fst).Nodup := by
  have hperm : ((value_counts l).map Prod.fst).Perm
      (((dedupFirst l).map (fun v => (v, countOf l v))).map Prod.fst) :=
    (perm_sortCountDesc _).map _
  refine hperm.symm.nodup ?_
  rw [List.map_map, show (Prod.fst ∘ fun v => (v, countOf l v)) = id from rfl,
    List.map_id]
  exact nodup_dedupFirst l

theorem find?_eq_of_mem_of_keysNodup :
    ∀ (l : List (String × Nat)) (x : String) (n : Nat),
      ((l.map Prod.fst).Nodup) → (x, n) ∈ l →
      l.find? (fun p => p.1 = x) = some (x, n)
  | [], _, _, _, hmem => absurd hmem (List.not_mem_nil _)
  | q :: t, x, n, hnd, hmem => by
    rw [List.map_cons, List.nodup_cons] at hnd
    rcases List.mem_cons.mp hmem with hq | ht
    · rw [← hq]
      exact List.find?_cons_of_pos _ (by simp [← hq])
    · have hq1 : ¬ q.1 = x := fun hq1 => hnd.1 (by
        rw [hq1]
        exact List.mem_map.mpr ⟨(x, n), ht, rfl⟩)
      rw [List.find?_cons_of_neg _ (by simpa using hq1)]
      exact find?_eq_of_mem_of_keysNodup t x n hnd.2 ht

theorem countOf_eq_zero_of_not_mem {l : List String} {x : String}
    (h : x ∉ l) : countOf l x = 0 := by
  rw [countOf, List.length_eq_zero]
  refine List.filter_eq_nil_iff.mpr fun y hy => ?_
  simp only [decide_eq_true_eq]
  rintro rfl
  exact h hy

theorem lookup_value_counts (l : List String) (g : String) :
    (((value_counts l).find? (fun p => p.1 = g)).map Prod.snd).getD 0
      = countOf l g := by
  by_cases hg : g ∈ l
  · rw [find?_eq_of_mem_of_keysNodup _ _ _ (keysNodup_value_counts l)
      ((mem_value_counts l g _).mpr ⟨hg, rfl⟩)]
    rfl
  · have hnone : (value_counts l).find? (fun p => p.1 = g) = none := by
      refine List.find?_eq_none.mpr fun p hp => ?_
      obtain ⟨a, b⟩ := p
      have := ((mem_value_counts l a b).mp hp).1
      simp only [decide_eq_true_eq]
      rintro rfl
      exact hg this
    rw [hnone, countOf_eq_zero_of_not_mem hg]
    rfl

theorem countOf_cons (y x : String) (l : List String) :
    countOf (y :: l) x = (if y = x then 1 else 0) + countOf l x := by
  by_cases h : y = x
  · subst h; simp [countOf, List.filter_cons, Nat.add_comm]
  · simp [countOf, List.filter_cons, h]

theorem countOf_filterMap_variability (df : List Row) (g : String) :
    countOf (df.filterMap (fun r => r.anchor_variability)) g
      = (df.filter (fun r => r.anchor_variability = some g)).length := by
  induction df with
  | nil => rfl
  | cons r t ih =>
    rw [List.filterMap_cons, List.filter_cons]
    cases hv : r.anchor_variability with
    | none => simpa [hv] using ih
    | some v =>
      by_cases hvg : v = g
      · subst hvg
        rw [countOf_cons, if_pos rfl, if_pos (by simp [hv]), List.length_cons, ih]
        omega
      · rw [countOf_cons, if_neg hvg, if_neg (by simp [hv, hvg]), ih]
        omega

theorem beginsWithList_iff :
    ∀ (l pat : List Char), beginsWithList l pat = true ↔ ∃ post, l = pat ++ post
  | l, [] => by simp [beginsWithList]
  | [], p :: ps => by simp [beginsWithList]
  | c :: cs, p :: ps => by
    simp only [beginsWithList, Bool.and_eq_true, decide_eq_true_eq,
      beginsWithList_iff cs ps, List.cons_append, List.cons.injEq]
    constructor
    · rintro ⟨rfl, post, rfl⟩
      exact ⟨post, rfl, rfl⟩
    · rintro ⟨post, rfl, rfl⟩
      exact ⟨rfl, post, rfl⟩

theorem hasSubList_iff :
    ∀ (pat l : List Char),
      hasSubList pat l = true ↔ ∃ pre post, l = pre ++ pat ++ post
  | pat, [] => by
    rw [hasSubList, beginsWithList_iff]
    constructor
    · rintro ⟨post, h⟩
      exact ⟨[], post, by simpa using h⟩
    · rintro ⟨pre, post, h⟩
      rw [eq_comm, List.append_eq_nil, List.append_eq_nil] at h
      exact ⟨[], by rw [h.1.2]; rfl⟩
  | pat, c :: t => by
    rw [hasSubList, Bool.or_eq_true, beginsWithList_iff, hasSubList_iff pat t]
    constructor
    · rintro (⟨post, h⟩ | ⟨pre, post, h⟩)
      · exact ⟨[], post, by simpa using h⟩
      · exact ⟨c :: pre, post, by simp [h]⟩
    · rintro ⟨pre, post, h⟩
      cases pre with
      | nil => exact Or.inl ⟨post, by simpa using h⟩
      | cons x xs =>
        have h' : c = x ∧ t = xs ++ pat ++ post := by simpa using h
        exact Or.inr ⟨xs, post, h'.2⟩

/-- Characterisation of `str.contains(term, case=False, na=False)` on a
cell: some lowercase decomposition exhibits the lowered term. -/
theorem containsCI_iff (cell : Cell) (term : String) :
    containsCI cell term = true ↔
      ∃ s pre post, cell = Cell.strv s ∧
        lowerList s.toList = pre ++ lowerList term.toList ++ post := by
  cases cell with
  | strv s =>
    rw [containsCI, hasSubList_iff]
    constructor
    · rintro ⟨pre, post, h⟩
      exact ⟨s, pre, post, rfl, h⟩
    · rintro ⟨s', pre, post, hs, h⟩
      obtain rfl : s = s' := by injection hs
      exact ⟨pre, post, h⟩
  | intv n =>
    refine iff_of_false (by simp [containsCI]) ?_
    rintro ⟨s, -, -, h, -⟩
    exact Cell.noConfusion h
  | nan =>
    refine iff_of_false (by simp [containsCI]) ?_
    rintro ⟨s, -, -, h, -⟩
    exact Cell.noConfusion h

theorem barParenAfter_iff :
    ∀ l : List Char,
      barParenAfter l = true ↔
        ∃ ws post, l = ws ++ '(' :: post ∧ ∀ c ∈ ws, c.isWhitespace = true
  | [] => by
    refine iff_of_false (by simp [barParenAfter]) ?_
    rintro ⟨ws, post, h, -⟩
    cases ws <;> exact List.noConfusion h
  | c :: t => by
    rw [barParenAfter]
    by_cases hp : c = '('
    · subst hp
      exact iff_of_true (by rw [if_pos rfl]) ⟨[], t, rfl, by simp⟩
    · rw [if_neg hp]
      by_cases hw : c.isWhitespace
      · rw [if_pos hw, barParenAfter_iff t]
        constructor
        · rintro ⟨ws, post, rfl, hws⟩
          refine ⟨c :: ws, post, rfl, ?_⟩
          intro x hx
          rcases List.mem_cons.mp hx with rfl | hx
          · exact hw
          · exact hws x hx
        · rintro ⟨ws, post, h, hws⟩
          cases ws with
          | nil => exact absurd (by injection h) hp
          | cons w ws' =>
            rw [List.cons_append] at h
            injection h with h1 h2
            exact ⟨ws', post, h2, fun x hx => hws x (List.mem_cons_of_mem w hx)⟩
      · rw [if_neg hw]
        refine iff_of_false (by simp) ?_
        rintro ⟨ws, post, h, hws⟩
        cases ws with
        | nil => exact hp (by injection h)
        | cons w ws' =>
          rw [List.cons_append] at h
          injection h with h1 h2
          exact hw (h1 ▸ hws w (List.mem_cons_self w ws'))

theorem hasBarParen_iff :
    ∀ l : List Char,
      hasBarParen l = true ↔
        ∃ pre ws post, l = pre ++ '|' :: (ws ++ '(' :: post)
          ∧ ∀ c ∈ ws, c.isWhitespace = true
  | [] => by
    refine iff_of_false (by simp [hasBarParen]) ?_
    rintro ⟨pre, ws, post, h, -⟩
    cases pre <;> exact List.noConfusion h
  | c :: t => by
    rw [hasBarParen, Bool.or_eq_true, Bool.and_eq_true, decide_eq_true_eq,
      barParenAfter_iff, hasBarParen_iff t]
    constructor
    · rintro (⟨rfl, ws, post, rfl, hws⟩ | ⟨pre, ws, post, rfl, hws⟩)
      · exact ⟨[], ws, post, rfl, hws⟩
      · exact ⟨c :: pre, ws, post, rfl, hws⟩
    · rintro ⟨pre, ws, post, h, hws⟩
      cases pre with
      | nil =>
        rw [List.nil_append] at h
        injection h with h1 h2
        exact Or.inl ⟨h1, ws, post, h2, hws⟩
      | cons x xs =>
        rw [List.cons_append] at h
        injection h with h1 h2
        exact Or.inr ⟨xs, ws, post, h2, hws⟩

theorem takeWhile_append_cons (p : Char → Bool) :
    ∀ (l1 : List Char) (c : Char) (l2 : List Char),
      (∀ x ∈ l1, p x = true) → p c = false →
      (l1 ++ c :: l2).takeWhile p = l1
  | [], c, l2, _, hc => by simp [List.takeWhile_cons, hc]
  | x :: t, c, l2, h, hc => by
    rw [List.cons_append, List.takeWhile_cons, h x (List.mem_cons_self x t),
      if_pos rfl,
      takeWhile_append_cons p t c l2 (fun y hy => h y (List.mem_cons_of_mem x hy)) hc]

theorem contains_eq_false_of_not_mem {l : List Char} {c : Char} (h : c ∉ l) :
    l.contains c = false := by
  cases hx : l.contains c with
  | false => rfl
  | true => exact absurd (List.elem_iff.mp hx) h

/-- An absolute `https://…` URL: the scheme is stripped at the first `:`
and the `//` marks a netloc. -/
theorem parseNetloc_absURL (w : List Char) :
    parseNetloc ('h' :: 't' :: 't' :: 'p' :: 's' :: ':' :: '/' :: '/' :: w) =
      (let nl := w.takeWhile (fun c => !netlocEnd c)
       if (nl.contains '[' && !nl.contains ']') ||
          (nl.contains ']' && !nl.contains '[') then .error ()
       else .ok nl) := rfl

/-! ## Claim theorems -/

/-- C1 (counterexample): a `LinkRecord` whose `anchor_texts` trims to zero
tokens yields *zero* expanded rows, not one, and its `target_url` is absent
from the output of `expand_anchor_texts`. -/
theorem expand_zero_tokens_counterexample :
    expandRow wsRow = []
    ∧ ¬ ∃ e ∈ expand_anchor_texts [wsRow], e.target_url = wsRow.target_url := by
  refine ⟨by decide, ?_⟩
  rintro ⟨e, he, -⟩
  have h : expand_anchor_texts [wsRow] = [] := by decide
  rw [h] at he
  exact List.not_mem_nil e he

/-- C1 (amended): `expand` emits exactly one record per retained anchor
token — hence zero records when trimming leaves no tokens — every emitted
record carries the parent's `target_url`, and a `target_url` appears in the
output of `expand_anchor_texts` iff some input row carries it and retains
at least one anchor token. -/
theorem expand_row_count_amended :
    (∀ r : Row, (expandRow r).length = (retainedTokens (pyStr r.anchor_texts)).length)
    ∧ (∀ (r : Row) (e : ExpRow), e ∈ expandRow r → e.target_url = r.target_url)
    ∧ (∀ (df : List Row) (u : Cell),
        (∃ e ∈ expand_anchor_texts df, e.target_url = u)
        ↔ ∃ r ∈ df, r.target_url = u ∧ retainedTokens (pyStr r.anchor_texts) ≠ []) := by
  refine ⟨fun r => pairAnchors_length _ _ _ _,
          fun r e he => mem_pairAnchors_target _ _ _ _ _ he, ?_⟩
  intro df u
  constructor
  · rintro ⟨e, he, hu⟩
    rw [expand_anchor_texts, List.mem_flatMap] at he
    obtain ⟨r, hr, her⟩ := he
    refine ⟨r, hr, ?_, ?_⟩
    · rw [← hu]
      exact (mem_pairAnchors_target _ _ _ _ _ her).symm
    · intro hnil
      rw [expandRow, hnil] at her
      simp [pairAnchors] at her
  · rintro ⟨r, hr, hu, hne⟩
    rcases htok : retainedTokens (pyStr r.anchor_texts) with - | ⟨a, t⟩
    · exact absurd htok hne
    · refine ⟨⟨r.target_url, a, (retainedTokens (pyStr r.found_at)).getD 0 ""⟩, ?_, hu⟩
      rw [expand_anchor_texts, List.mem_flatMap]
      exact ⟨r, hr, by rw [expandRow, htok]; simp [pairAnchors]⟩

/-- C1 (witness): applied to the spec's example row, whose single retained
token makes its `target_url` reachable in the expanded output. -/
theorem expand_row_count_amended_witness :
    ∃ e ∈ expand_anchor_texts [ex8Row],
      e.target_url = Cell.strv "https://shop.example.com/a/b/" :=
  (expand_row_count_amended.2.2 [ex8Row]
      (Cell.strv "https://shop.example.com/a/b/")).mpr
    ⟨ex8Row, by decide, by decide, by decide⟩

/-- C2 (counterexample): on the spec's example row (`anchor_texts`
`"Buy Now; "`), `expand` emits one record, not the claimed two — the
second token trims to `""` and is discarded by the `if a.strip()` filter. -/
theorem expand_pairing_counterexample :
    expandRow ex8Row ≠
      [⟨Cell.strv "https://shop.example.com/a/b/", "Buy Now", "https://example.com/p1"⟩,
       ⟨Cell.strv "https://shop.example.com/a/b/", "", "https://example.com/p2"⟩]
    ∧ (expandRow ex8Row).length = 1 := by
  exact ⟨by decide, by decide⟩

/-- C2 (amended): the i-th *retained* anchor token is paired with the i-th
*retained* `found_at` token (both lists drop tokens that trim to empty),
padding with `""` where the `found_at` list is shorter; on the example row
the result is the single record `("Buy Now", "https://example.com/p1")`. -/
theorem expand_pairing_amended :
    (∀ (r : Row) (i : Nat),
        (expandRow r)[i]? =
          ((retainedTokens (pyStr r.anchor_texts))[i]?).map
            (fun a => ExpRow.mk r.target_url a
              ((retainedTokens (pyStr r.found_at)).getD i "")))
    ∧ expandRow ex8Row =
        [⟨Cell.strv "https://shop.example.com/a/b/", "Buy Now",
          "https://example.com/p1"⟩] := by
  refine ⟨fun r i => ?_, by decide⟩
  rw [expandRow]
  simpa using pairAnchors_getElem? r.target_url
    (retainedTokens (pyStr r.found_at)) (retainedTokens (pyStr r.anchor_texts)) 0 i

/-- C3 (counterexample): two rows sharing one `target_url` are counted
twice — `value_counts` runs on the raw `anchor_variability` column withou
deduplication by `target_url`. -/
theorem histogram_dedup_counterexample :
    anchor_counts [dupRow, dupRow]
      = [("1-3", 2), ("4-5", 0), ("6-8", 0), ("8+", 0), ("Unknown", 0)]
    ∧ anchor_counts [dupRow, dupRow]
      ≠ [("1-3", 1), ("4-5", 0), ("6-8", 0), ("8+", 0), ("Unknown", 0)] :=
  ⟨by decide, by decide⟩

/-- C3 (amended): the histogram reports, in the fixed bucket order
`[1-3, 4-5, 6-8, 8+, Unknown]` with zero fill, the number of *rows* in
each bucket; duplicated `target_url`s are counted once per row, there is
no deduplication. -/
theorem histogram_amended :
    (∀ df : List Row, (anchor_counts df).map Prod.fst = group_order)
    ∧ (∀ (df : List Row) (g : String) (n : Nat),
        (g, n) ∈ anchor_counts df →
          n = (df.filter (fun r => r.anchor_variability = some g)).length) := by
  constructor
  · intro df
    rw [anchor_counts, reindexCounts, List.map_map,
      show (Prod.fst ∘ fun g =>
        ((g, (((value_counts (df.filterMap fun r => r.anchor_variability)).find?
          fun p => decide (p.1 = g)).map Prod.snd).getD 0))) = id from rfl,
      List.map_id]
  · intro df g n hmem
    rw [anchor_counts, reindexCounts, List.mem_map] at hmem
    obtain ⟨g', hg', heq⟩ := hmem
    rw [Prod.mk.injEq] at heq
    obtain ⟨rfl, h2⟩ := heq
    rw [← h2, lookup_value_counts, countOf_filterMap_variability]

/-- C3 (witness): the duplicated-URL table, where the `1-3` bucket count
equals the row count 2. -/
theorem histogram_amended_witness :
    ("1-3", 2) ∈ anchor_counts [dupRow, dupRow]
    ∧ 2 = (([dupRow, dupRow] : List Row).filter
        (fun r => r.anchor_variability = some "1-3")).length :=
  ⟨by decide, histogram_amended.2 [dupRow, dupRow] "1-3" 2 (by decide)⟩

/-- C8: each `url_component_1` percentage divides by the full bucket row
count, while each `url_component_2` percentage divides only by the count
of rows whose component 2 is non-missing; both hold simultaneously, and on
`demoTable` the two denominators genuinely differ (2 vs 1).  Percentages
are in exact hundredths of a percent (`5000` renders as `50.0%`). -/
theorem component_breakdown_denominators :
    (∀ (df : List Row) (bucket c : String) (n p : Nat),
        (c, n, p) ∈ (component_breakdown df bucket).1 →
          p = pctHundredths n (bucketRows df bucket).length
          ∧ n = countOf ((bucketRows df bucket).filterMap
              (fun r => r.url_component_1.join)) c)
    ∧ (∀ (df : List Row) (bucket c : String) (n p : Nat),
        (c, n, p) ∈ (component_breakdown df bucket).2 →
          p = pctHundredths n ((bucketRows df bucket).filter
              (fun r => (r.url_component_2.join).isSome)).length
          ∧ n = countOf (((bucketRows df bucket).filter
              (fun r => (r.url_component_2.join).isSome)).filterMap
              (fun r => r.url_component_2.join)) c)
    ∧ component_breakdown demoTable "1-3"
        = ([("/a/", 1, 5000), ("/c/", 1, 5000)], [("/b/", 1, 10000)]) := by
  refine ⟨?_, ?_, by decide⟩
  · intro df bucket c n p hmem
    simp only [component_breakdown, List.mem_map] at hmem
    obtain ⟨⟨c', n'⟩, hvc, heq⟩ := hmem
    rw [Prod.mk.injEq, Prod.mk.injEq] at heq
    obtain ⟨rfl, rfl, rfl⟩ := heq
    exact ⟨rfl, ((mem_value_counts _ _ _).mp hvc).2⟩
  · intro df bucket c n p hmem
    simp only [component_breakdown, List.mem_map] at hmem
    obtain ⟨⟨c', n'⟩, hvc, heq⟩ := hmem
    rw [Prod.mk.injEq, Prod.mk.injEq] at heq
    obtain ⟨rfl, rfl, rfl⟩ := heq
    exact ⟨rfl, ((mem_value_counts _ _ _).mp hvc).2⟩

/-- C8 (witness): on `demoTable`'s `1-3` bucket the component-1 percentage
of `/a/` divides 1 by the bucket total 2 while the component-2 percentage
of `/b/` divides 1 by the non-missing count 1. -/
theorem component_breakdown_denominators_witness :
    5000 = pctHundredths 1 (bucketRows demoTable "1-3").length
    ∧ 10000 = pctHundredths 1 ((bucketRows demoTable "1-3").filter
        (fun r => (r.url_component_2.join).isSome)).length :=
  ⟨(component_breakdown_denominators.1 demoTable "1-3" "/a/" 1 5000 (by decide)).1,
   (component_breakdown_denominators.2.1 demoTable "1-3" "/b/" 1 10000 (by decide)).1⟩

/-- C6: the claim holds for the first `categorise_anchor_count`
(lines 40–54) — never raises, `Unknown` on non-numeric, inclusive upper
bounds — but the second copy (lines 152–163) dropped the `try/except` and
raises `ValueError` on a non-NaN, non-numeric count such as `"abc"`. -/
theorem bucket_of_second_copy_raises :
    categorise_anchor_count (Cell.strv "abc") = "Unknown"
    ∧ categorise_anchor_count_v2 (Cell.strv "abc") = Except.error "ValueError"
    ∧ categorise_anchor_count Cell.nan = "Unknown"
    ∧ categorise_anchor_count_v2 Cell.nan = Except.ok "Unknown"
    ∧ categorise_anchor_count (Cell.intv 3) = "1-3"
    ∧ categorise_anchor_count (Cell.intv 4) = "4-5"
    ∧ categorise_anchor_count (Cell.intv 8) = "6-8"
    ∧ categorise_anchor_count (Cell.intv 9) = "8+" :=
  ⟨by decide, rfl, by decide, rfl, by decide, by decide, by decide, by decide⟩

/-- C9: the first `prepare_data` (lines 24–76) copies its argument and
leaves it unchanged, but the second copy (lines 137–185) has no
`df.copy()` — it decorates the argument in place and returns the same
object, so after the call the caller's table is the decorated one, no
longer equal to the raw input. -/
theorem prepare_mutation_code_bug :
    (∀ df : List Row, (prepare_data df).2 = df)
    ∧ prepare_data_v2 [ex8Row] = Except.ok ([decorateRow ex8Row], [decorateRow ex8Row])
    ∧ [decorateRow ex8Row] ≠ [ex8Row] :=
  ⟨fun _ => rfl, rfl, by decide⟩

/-- C10: a missing (`NaN`) `anchor_texts` is stringified to the literal
`"nan"` before splitting, so exactly one record is emitted whose
`anchor_text` is `"nan"`; a missing `found_at` likewise becomes the
literal `"nan"`. -/
theorem expand_nan_literal (r : Row) (h : r.anchor_texts = Cell.nan) :
    (expandRow r).length = 1
    ∧ (∀ e ∈ expandRow r, e.anchor_text = "nan")
    ∧ (r.found_at = Cell.nan → expandRow r = [⟨r.target_url, "nan", "nan"⟩]) := by
  have htok : retainedTokens (pyStr Cell.nan) = ["nan"] := by decide
  refine ⟨?_, ?_, ?_⟩
  · rw [expandRow, h, htok]
    rfl
  · intro e he
    rw [expandRow, h, htok] at he
    simp only [pairAnchors, List.mem_cons, List.not_mem_nil, or_false] at he
    rw [he]
  · intro hf
    rw [expandRow, h, hf, htok]
    rfl

/-- C10 (witness): a concrete record with both fields missing. -/
theorem expand_nan_literal_witness :
    expandRow { ex8Row with anchor_texts := Cell.nan, found_at := Cell.nan } =
      [⟨Cell.strv "https://shop.example.com/a/b/", "nan", "nan"⟩] :=
  (expand_nan_literal { ex8Row with anchor_texts := Cell.nan, found_at := Cell.nan }
    rfl).2.2 rfl

/-- C4 (counterexample): with an empty search term the tab produces no
result table at all (`if search_term:` is falsy), not the unfiltered
table the claim requires. -/
theorem search_empty_term_counterexample :
    search_results [exExpRow] "" = none
    ∧ search_results [exExpRow] "" ≠ some [exExpRow] :=
  ⟨rfl, by decide⟩

/-- C4 (amended): the search term is handed to `str.contains` as a
*regular expression* (the `regex=True` default).  For a non-empty term
free of regex metacharacters — where the regex match is literal — the
search keeps exactly the expanded rows whose `target_url` is a string
containing the term case-insensitively; a term with metacharacters
matches as a regex (an invalid pattern raises `re.error`), which this
theorem does not cover.  The code has no `min_unique_anchor_count`
filter, and an empty term yields no result table rather than all rows. -/
theorem search_amended :
    (∀ (dfx : List ExpRow) (term : String), term ≠ "" →
        regexFree term = true →
        ∀ e : ExpRow,
          e ∈ (search_results dfx term).getD [] ↔
            e ∈ dfx ∧ ∃ s pre post, e.target_url = Cell.strv s ∧
              lowerList s.toList = pre ++ lowerList term.toList ++ post)
    ∧ (∀ dfx : List ExpRow, search_results dfx "" = none) := by
  refine ⟨?_, fun dfx => rfl⟩
  intro dfx term hterm _ e
  rw [search_results, if_neg hterm, Option.getD_some, List.mem_filter,
    containsCI_iff]

/-- C4 (witness): the metacharacter-free term `"shop"` finds the row whose
URL contains `"Shop"`. -/
theorem search_amended_witness :
    exExpRow ∈ (search_results [exExpRow] "shop").getD [] :=
  (search_amended.1 [exExpRow] "shop" (by decide) (by decide) exExpRow).mpr
    ⟨by decide, "https://Shop.example.com/x", "https://".toList,
      ".example.com/x".toList, rfl, by decide⟩

/-- C5 (counterexample): the report is computed from the *prepared* table
by the regex `\|\s*\(` on the raw `anchor_texts`; on the spec's example
row it returns no rows, not the claimed single empty-anchor record. -/
theorem missing_report_counterexample :
    (missing_anchor_df (prepare_data [ex8Row]).1).length ≠ 1
    ∧ missing_anchor_df (prepare_data [ex8Row]).1 = [] :=
  ⟨by decide, by decide⟩

/-- C5 (amended): `missing_anchor_df` keeps exactly the rows of the
prepared (non-expanded) table whose stringified `anchor_texts` contains a
`|` followed by optional whitespace and `(`; the example row is not kept,
while a row with anchor text `"Home | (image)"` is. -/
theorem missing_report_amended :
    (∀ (df : List Row) (r : Row),
        r ∈ missing_anchor_df df ↔
          r ∈ df ∧ ∃ pre ws post,
            (pyStr r.anchor_texts).toList = pre ++ '|' :: (ws ++ '(' :: post)
            ∧ ∀ c ∈ ws, c.isWhitespace = true)
    ∧ missing_anchor_df (prepare_data [ex8Row]).1 = []
    ∧ (missing_anchor_df (prepare_data [barRow]).1).length = 1 := by
  refine ⟨?_, by decide, by decide⟩
  intro df r
  rw [missing_anchor_df, List.mem_filter, hasBarParen_iff]

/-- C5 (witness): the `"Home | (image)"` row is kept by the filter. -/
theorem missing_report_amended_witness :
    barRow ∈ missing_anchor_df [barRow] :=
  (missing_report_amended.1 [barRow] barRow).mpr
    ⟨by decide, "Home ".toList, [' '], "image)".toList, by decide, by decide⟩

/-- C7 (counterexample): a URL with no host at all gets `"www"`, not
`"unknown"` — `urlparse` does not raise on a missing host; the empty
netloc splits into one (empty) label, which is `≤ 2`. -/
theorem subdomain_missing_host_counterexample :
    get_subdomain (Cell.strv "/just/a/path") = "www"
    ∧ get_subdomain (Cell.strv "/just/a/path") ≠ "unknown" :=
  ⟨by decide, by decide⟩

/-- C7 (amended): for a well-formed `https://host/…` URL, the result is
the first dot-label of the host when it has more than two labels and
`"www"` otherwise; a missing host also gives `"www"` (the empty string
parses to an empty netloc); `"unknown"` arises only when `urlparse`
itself raises, e.g. on a mismatched IPv6 bracket. -/
theorem subdomain_amended :
    (∀ host rest : String, host.toList ≠ [] →
        (∀ c ∈ host.toList, netlocEnd c = false ∧ c ≠ '[' ∧ c ≠ ']') →
        get_subdomain (Cell.strv ("https://" ++ host ++ "/" ++ rest)) =
          (if 2 < (splitOnChar '.' host.toList).length
           then String.mk ((splitOnChar '.' host.toList).headD [])
           else "www"))
    ∧ get_subdomain (Cell.strv "") = "www"
    ∧ get_subdomain (Cell.strv "http://[abc") = "unknown" := by
  refine ⟨?_, by decide, by decide⟩
  intro host rest hne hchars
  have hlist : ("https://" ++ host ++ "/" ++ rest).toList
      = 'h' :: 't' :: 't' :: 'p' :: 's' :: ':' :: '/' :: '/' :: (host.toList ++ '/' :: rest.toList) := by
    show ("https://" ++ host ++ "/" ++ rest).data = _
    rw [String.data_append, String.data_append, String.data_append]
    show ('h' :: 't' :: 't' :: 'p' :: 's' :: ':' :: '/' :: '/' :: []) ++ host.data ++ ('/' :: [])
        ++ rest.data = _
    simp [List.append_assoc]
  have htake : (host.toList ++ '/' :: rest.toList).takeWhile
      (fun c => !netlocEnd c) = host.toList :=
    takeWhile_append_cons _ host.toList '/' rest.toList
      (fun x hx => by rw [(hchars x hx).1]; rfl) rfl
  have h1 : host.toList.contains '[' = false :=
    contains_eq_false_of_not_mem (fun hm => (hchars _ hm).2.1 rfl)
  have h2 : host.toList.contains ']' = false :=
    contains_eq_false_of_not_mem (fun hm => (hchars _ hm).2.2 rfl)
  have hnetloc : parseNetloc (("https://" ++ host ++ "/" ++ rest).toList)
      = .ok host.toList := by
    rw [hlist, parseNetloc_absURL]
    simp only [htake, h1, h2]
    rfl
  have hmatch : get_subdomain (Cell.strv ("https://" ++ host ++ "/" ++ rest)) =
      (match parseNetloc ("https://" ++ host ++ "/" ++ rest).toList with
       | .error _ => "unknown"
       | .ok nl =>
         let domain_parts := splitOnChar '.' nl
         if domain_parts.length > 2 then String.mk (domain_parts.headD [])
         else "www") := rfl
  rw [hmatch, hnetloc]

/-- C7 (witness): a three-label host yields its first label. -/
theorem subdomain_amended_witness :
    get_subdomain (Cell.strv "https://shop.example.com/a/b/") = "shop" := by
  have h := subdomain_amended.1 "shop.example.com" "a/b/" (by decide) (by decide)
  have heq : ("https://" ++ "shop.example.com" ++ "/" ++ "a/b/" : String)
      = "https://shop.example.com/a/b/" := rfl
  rw [heq] at h
  rw [h]
  decide

end AppPy
